import Mathlib

/-!
Verification development for the Excel name-matching pipeline in `regi.py`.

The script reconciles a "subject" table against a "reference" table:
it normalizes names to canonical keys, exact-joins on the keys, falls back
to approximate matching above a configurable threshold, fills "Not found",
reorders the result columns and reports summary counts.

Shallow embedding choices:
* A pandas cell is a `Value`: missing (`NaN`/`None`), a string, or a number.
  Numbers only ever appear in the `MatchScore` column; name cells in all the
  claims are strings or missing, so `normalize_name` does not model Python's
  `str()` rendering of numeric cells.
* A dataframe row is a total function from column name to `Value`; a frame
  carries its ordered column list plus the row list.  Column assignment
  (`df[c] = ...`) appends `c` to the column list when new, and rewrites every
  row, exactly as pandas does.
* `str.lower()` is modelled on ASCII letters (`Char.toLower`); the characters
  relevant to normalization — ASCII letters, digits, space, punctuation and
  the non-breaking space — are handled exactly as in Python.
* The external `rapidfuzz` scorer is an opaque parameter
  `scorer : String → String → Rat` (the spec treats the scoring function as
  an assumed external collaborator); `process.extractOne` keeps the first
  candidate attaining the maximal score, as rapidfuzz does (a later candidate
  replaces the incumbent only on a strictly greater score).
-/

namespace Regi

/-- A pandas cell: missing (`NaN` / `None`), a string, or a number. -/
inductive Value where
  | na : Value
  | str : String → Value
  | num : Rat → Value
  deriving DecidableEq, Repr

/-- `pd.notna`: true on any non-missing cell. -/
def Value.notna : Value → Bool
  | Value.na => false
  | _ => true

/-- A dataframe row, as a total map from column name to cell value. -/
def Row : Type := String → Value

/-- Write one cell of a row (`row[c] = v`). -/
def setCell (r : Row) (c : String) (v : Value) : Row :=
  fun c2 => if c2 = c then v else r c2

/-- A dataframe: ordered column names plus rows. -/
structure Frame where
  cols : List String
  rows : List Row

/-- `df[c] = df.apply(g)`: every row gets the new cell; the column name is
appended to the column order when it is new, kept in place when it exists. -/
def Frame.assign (f : Frame) (c : String) (g : Row → Value) : Frame :=
  { cols := if c ∈ f.cols then f.cols else f.cols ++ [c],
    rows := f.rows.map (fun r => setCell r c (g r)) }

/-- Build a row from an association list; absent columns are missing cells. -/
def rowOf (l : List (String × Value)) : Row :=
  fun c =>
    match l.find? (fun p => decide (p.1 = c)) with
    | some p => p.2
    | none => Value.na

/-- Project a cell known to be a string (canonical keys are always strings). -/
def cellStr : Value → String
  | Value.str s => s
  | _ => ""

/-- Read a cell of row `i` of a frame (missing when the index is out of range). -/
def cellAt (f : Frame) (i : Nat) (c : String) : Value :=
  match f.rows.get? i with
  | some r => r c
  | none => Value.na

/-! ### Normalizer (`normalize_name`, regi.py lines 16–22) -/

/-- Characters kept by the substitution regex `[^a-z0-9 ]+`. -/
def keepChar (c : Char) : Bool :=
  (decide ('a' ≤ c) && decide (c ≤ 'z')) ||
  (decide ('0' ≤ c) && decide (c ≤ '9')) ||
  (c == ' ')

/-- `re.sub(r"[^a-z0-9 ]+", " ", s)`: each maximal run of characters outside
`[a-z0-9 ]` is replaced by a single space.  The flag records whether the
previous character belonged to such a run. -/
def subNonAlnum : List Char → Bool → List Char
  | [], _ => []
  | c :: cs, inRun =>
    if keepChar c then c :: subNonAlnum cs false
    else if inRun then subNonAlnum cs true
    else ' ' :: subNonAlnum cs true

/-- `re.sub(r"\s+", " ", s)`: after `subNonAlnum` the only whitespace left is
the ordinary space (every other whitespace character is outside `[a-z0-9 ]`),
so collapsing `\s+` runs is collapsing space runs.  The flag records whether
the previous character was a space. -/
def collapseSpaces : List Char → Bool → List Char
  | [], _ => []
  | c :: cs, prevSpace =>
    if c = ' ' then
      if prevSpace then collapseSpaces cs true
      else ' ' :: collapseSpaces cs true
    else c :: collapseSpaces cs false

/-- `str.strip()` on a string whose only whitespace is the ordinary space. -/
def stripSpaces (l : List Char) : List Char :=
  ((l.dropWhile (fun c => c = ' ')).reverse.dropWhile (fun c => c = ' ')).reverse

/-- Fold the non-breaking space (U+00A0) to an ordinary space. -/
def foldNbsp (c : Char) : Char :=
  if c = '\u00A0' then ' ' else c

/-- The string portion of `normalize_name`: lower-case, fold NBSP to space,
replace runs of characters outside `[a-z0-9 ]` by a space, collapse whitespace
runs, strip. -/
def normalizeStr (s : String) : String :=
  String.mk (stripSpaces (collapseSpaces (subNonAlnum ((s.data.map Char.toLower).map foldNbsp) false) false))

/-- `normalize_name` (regi.py lines 16–22).  `pd.isna` input yields the empty
key; otherwise the string pipeline above.  Numeric name cells (which Python
would stringify) are outside the scope of the claims and map to the empty key
in this embedding. -/
def normalize_name : Value → String
  | Value.na => ""
  | Value.str s => normalizeStr s
  | Value.num _ => ""

/-! ### Configuration and reference index -/

/-- Sidebar configuration: fuzzy enablement, threshold (slider 50–100,
default 92) and the selected rapidfuzz scorer, kept opaque. -/
structure Config where
  use_fuzzy : Bool
  threshold : Rat
  scorer : String → String → Rat

/-- The sentinel option offered when no category-like column was detected. -/
def noCatSentinel : String := "(No category column)"

/-- One row of `ref_map`: canonical key, original reference name, category
(`None` in no-category mode). -/
structure RefEntry where
  norm : String
  refName : Value
  refCategory : Value
  deriving DecidableEq, Repr

/-- `drop_duplicates("_norm", keep="first")`: keep the first row per key.
`seen` accumulates the keys already kept. -/
def dedupByNorm : List RefEntry → List String → List RefEntry
  | [], _ => []
  | e :: es, seen =>
    if e.norm ∈ seen then dedupByNorm es seen
    else e :: dedupByNorm es (e.norm :: seen)

/-- `work["_norm"] = work[col].map(normalize_name)`. -/
def work_frame (col_name : String) (df : Frame) : Frame :=
  df.assign "_norm" (fun r => Value.str (normalize_name (r col_name)))

/-- The column selection and rename producing the raw `ref_map` rows
(regi.py lines 140–154).  `dropna(subset=["_norm"])` in the source is a
no-op: `normalize_name` always returns a string, never `NaN`, so it is not
modelled.  In no-category mode `RefCategory` is the `None` sentinel. -/
def refRows (col_name2 col_cat2 : String) (w2 : Frame) : List RefEntry :=
  if col_cat2 = noCatSentinel then
    w2.rows.map (fun r =>
      { norm := cellStr (r "_norm"), refName := r col_name2, refCategory := Value.na })
  else
    w2.rows.map (fun r =>
      { norm := cellStr (r "_norm"), refName := r col_name2, refCategory := r col_cat2 })

/-- `ref_map` (regi.py lines 140–154): normalize the reference names, select
name/category, keep the first row per canonical key. -/
def ref_map (col_name2 col_cat2 : String) (df2 : Frame) : List RefEntry :=
  dedupByNorm (refRows col_name2 col_cat2 (work_frame col_name2 df2)) []

/-! ### Exact merge (regi.py line 157) -/

/-- The join condition of `merge(on="_norm")`. -/
def keyMatch (r : Row) (e : RefEntry) : Bool :=
  decide (r "_norm" = Value.str e.norm)

/-- `work1.merge(ref_map, on="_norm", how="left")`: each left row produces one
output row per matching reference row (carrying `RefName`/`RefCategory`), or a
single row with missing cells when nothing matches.  Left order is preserved;
multiple matches would duplicate the subject row.  Scope: this embedding
assumes the left frame has no `RefName`/`RefCategory` column of its own — on
such inputs pandas would suffix the overlapping names (`RefName_x`,
`RefName_y`) and the script would then abort with a `KeyError` at
`out["RefName"]`, producing no output table; that aborting path is not
modelled, and `runMatching_cols`/`c9_columns` exclude those columns by
hypothesis. -/
def leftMerge (f : Frame) (refs : List RefEntry) : Frame :=
  { cols := f.cols ++ ["RefName", "RefCategory"],
    rows := f.rows.bind (fun r =>
      match refs.filter (keyMatch r) with
      | [] => [setCell (setCell r "RefName" Value.na) "RefCategory" Value.na]
      | ms => ms.map (fun e => setCell (setCell r "RefName" e.refName) "RefCategory" e.refCategory)) }

/-- The single-match form of the merge: valid once the reference keys are
unique (proved below for `ref_map`). -/
def merge_one (refs : List RefEntry) (r : Row) : Row :=
  match refs.find? (keyMatch r) with
  | some e => setCell (setCell r "RefName" e.refName) "RefCategory" e.refCategory
  | none => setCell (setCell r "RefName" Value.na) "RefCategory" Value.na

/-! ### Approximate matcher (regi.py lines 164–184) -/

/-- `process.extractOne`: best (choice, score) so far; a later choice replaces
the incumbent only on a strictly greater score, so ties keep the first. -/
def extractOneAux (scorer : String → String → Rat) (q : String) :
    List String → Option (String × Rat) → Option (String × Rat)
  | [], best => best
  | c :: cs, none => extractOneAux scorer q cs (some (c, scorer q c))
  | c :: cs, some (b, bs) =>
    if bs < scorer q c then extractOneAux scorer q cs (some (c, scorer q c))
    else extractOneAux scorer q cs (some (b, bs))

/-- `process.extractOne(q, choices, scorer=scorer)` with no score cutoff:
`none` exactly when there are no choices. -/
def extractOne (scorer : String → String → Rat) (q : String)
    (choices : List String) : Option (String × Rat) :=
  extractOneAux scorer q choices none

/-- `ref_cat_by_norm.get(cand)` — `dict(zip(...))` lookup with `None` default.
The keys are unique after deduplication, so first-match lookup agrees with the
Python dict (which would keep the last duplicate). -/
def refCatLookup (refs : List RefEntry) (k : String) : Value :=
  match refs.find? (fun e => decide (e.norm = k)) with
  | some e => e.refCategory
  | none => Value.na

/-- `ref_raw_by_norm.get(cand)`, as `refCatLookup`. -/
def refRawLookup (refs : List RefEntry) (k : String) : Value :=
  match refs.find? (fun e => decide (e.norm = k)) with
  | some e => e.refName
  | none => Value.na

/-- One row of the fuzzy stage (regi.py lines 164–184).  The source first
collects `hits` from a snapshot of the table and then writes them back by row
index; since every update touches only its own row and reads only fields the
other updates never change, that is the same as this per-row function.
The guard is the `need` mask: `MatchMethod` still unset and nonempty key. -/
def fuzzyStep (cfg : Config) (refs : List RefEntry) (r : Row) : Row :=
  if r "MatchMethod" = Value.na ∧ ¬ r "_norm" = Value.str "" then
    match extractOne cfg.scorer (cellStr (r "_norm")) ((dedupByNorm refs []).map RefEntry.norm) with
    | none => r
    | some (cand, score) =>
      if cfg.threshold ≤ score then
        setCell (setCell (setCell (setCell r
          "Category" (refCatLookup (dedupByNorm refs []) cand))
          "MatchedTo" (refRawLookup (dedupByNorm refs []) cand))
          "MatchMethod" (Value.str "Fuzzy"))
          "MatchScore" (Value.num score)
      else r
  else r

/-! ### Not-found fallback and column reorder (regi.py lines 186–205) -/

/-- `fillna("Not found")` on one cell. -/
def fillnaNF (v : Value) : Value :=
  if v = Value.na then Value.str "Not found" else v

/-- `fillna(0.0)` on one cell. -/
def fillna0 (v : Value) : Value :=
  if v = Value.na then Value.num 0 else v

/-- Reorder columns (regi.py lines 197–205): drop the helper and result
columns (`list.remove` inside an `if c in cols`, i.e. erase when present) and
reinsert the four result columns right after the subject's name column. -/
def reorder_columns (col_name1 : String) (f : Frame) : Frame :=
  let cols := ((((((f.cols.erase "RefName").erase "RefCategory").erase "_norm").erase
    "Category").erase "MatchedTo").erase "MatchMethod").erase "MatchScore"
  let insert_at := if col_name1 ∈ cols then cols.indexOf col_name1 + 1 else 1
  { cols := cols.take insert_at ++ ["Category", "MatchedTo", "MatchMethod", "MatchScore"]
      ++ cols.drop insert_at,
    rows := f.rows }

/-! ### The pipeline (regi.py lines 132–205) -/

/-- The whole matching pipeline, frame level: normalize, exact merge, the four
result-column assignments, optional fuzzy pass, not-found fallback, column
reorder. -/
def runMatching (cfg : Config) (col_name1 col_name2 col_cat2 : String)
    (df1 df2 : Frame) : Frame :=
  let work1 := work_frame col_name1 df1
  let refs := ref_map col_name2 col_cat2 df2
  let out1 := leftMerge work1 refs
  let out2 := out1.assign "Category" (fun r => r "RefCategory")
  let out3 := out2.assign "MatchedTo" (fun r => r "RefName")
  let out4 := out3.assign "MatchMethod"
    (fun r => if (r "Category").notna then Value.str "Exact" else Value.na)
  let out5 := out4.assign "MatchScore"
    (fun r => if (r "Category").notna then Value.num 100 else Value.na)
  let out6 := if cfg.use_fuzzy then
      { cols := out5.cols, rows := out5.rows.map (fuzzyStep cfg refs) }
    else out5
  let out7 :=
    if col_cat2 = noCatSentinel then
      (out6.assign "Category"
        (fun r => if (r "MatchedTo").notna then Value.str "Found" else Value.str "Not found")).assign
        "MatchMethod" (fun r => fillnaNF (r "MatchMethod"))
    else
      (out6.assign "Category" (fun r => fillnaNF (r "Category"))).assign
        "MatchMethod" (fun r => fillnaNF (r "MatchMethod"))
  let out8 := out7.assign "MatchScore" (fun r => fillna0 (r "MatchScore"))
  reorder_columns col_name1 out8

/-! ### Per-row description of the pipeline

The frame pipeline is a sequence of row-wise maps except for the merge, which
is a bind; once the reference keys are unique the bind emits exactly one row
per subject row, and the whole pipeline is `List.map` of the following
composition.  This is proved as `runMatching_rows` below. -/

/-- Rows after the exact stage (normalize, merge, the four assignments). -/
def exact_phase (col_name1 : String) (refs : List RefEntry) (r0 : Row) : Row :=
  let r1 := setCell r0 "_norm" (Value.str (normalize_name (r0 col_name1)))
  let r2 := merge_one refs r1
  let r3 := setCell r2 "Category" (r2 "RefCategory")
  let r4 := setCell r3 "MatchedTo" (r3 "RefName")
  let r5 := setCell r4 "MatchMethod"
    (if (r4 "Category").notna then Value.str "Exact" else Value.na)
  setCell r5 "MatchScore"
    (if (r5 "Category").notna then Value.num 100 else Value.na)

/-- Rows after the not-found fallback (both category modes). -/
def notfound_phase (col_cat2 : String) (r : Row) : Row :=
  let r1 :=
    if col_cat2 = noCatSentinel then
      setCell r "Category"
        (if (r "MatchedTo").notna then Value.str "Found" else Value.str "Not found")
    else
      setCell r "Category" (fillnaNF (r "Category"))
  let r2 := setCell r1 "MatchMethod" (fillnaNF (r1 "MatchMethod"))
  setCell r2 "MatchScore" (fillna0 (r2 "MatchScore"))

/-- The pipeline's effect on a single subject row. -/
def processRow (cfg : Config) (col_name1 col_cat2 : String)
    (refs : List RefEntry) (r0 : Row) : Row :=
  notfound_phase col_cat2
    ((if cfg.use_fuzzy then fuzzyStep cfg refs else id) (exact_phase col_name1 refs r0))

/-! ### Summary counts (regi.py lines 208–211) -/

/-- `len(out)`. -/
def totalRows (f : Frame) : Nat := f.rows.length

/-- `(out["MatchMethod"] == m).sum()`. -/
def countMethod (f : Frame) (m : String) : Nat :=
  List.countP (fun r => decide (r "MatchMethod" = Value.str m)) f.rows

/-! ### Statement vocabulary -/

/-- Reference entry found by the exact stage for a subject row: the first
reference-index entry whose canonical key equals the row's canonical key. -/
def exactLookup (col_name1 : String) (refs : List RefEntry) (r0 : Row) : Option RefEntry :=
  refs.find? (fun e => decide (Value.str (normalize_name (r0 col_name1)) = Value.str e.norm))

/-- Original reference name of an optional hit (`NaN` on a miss). -/
def nameOfHit : Option RefEntry → Value
  | some e => e.refName
  | none => Value.na

/-- Reference category of an optional hit (`NaN` on a miss). -/
def catOfHit : Option RefEntry → Value
  | some e => e.refCategory
  | none => Value.na

/-- The normalizer as the spec's §4.1 describes it, with the substitution read
as "replaced by a space": every character outside `[a-z0-9 ]` (after
lower-casing and NBSP folding) becomes one space, then whitespace runs
collapse and the ends are trimmed.  Char-by-char replacement and the source's
run replacement agree after collapsing (proved below). -/
def normalize_spec (v : Value) : String :=
  match v with
  | Value.na => ""
  | Value.num _ => ""
  | Value.str s =>
    String.mk (stripSpaces (collapseSpaces ((s.data.map Char.toLower).map
      (fun c => if keepChar (foldNbsp c) then foldNbsp c else ' ')) false))

/-- The normalizer exactly as claim C3 words it: every character outside
`[a-z0-9 ]` is deleted (removed, not replaced by a space). -/
def normalize_claimC3 (v : Value) : String :=
  match v with
  | Value.na => ""
  | Value.num _ => ""
  | Value.str s =>
    String.mk (stripSpaces (collapseSpaces
      (((s.data.map Char.toLower).map foldNbsp).filter keepChar) false))

/-! ### Concrete inputs for witnesses and counterexamples -/

/-- Scorer giving 100 to equal strings and 0 otherwise (an instance of the
abstract scorer family; identical strings score 100 under every rapidfuzz
ratio scorer). -/
def eqScorer : String → String → Rat :=
  fun a b => if a = b then 100 else 0

/-- Scorer giving every pair 95 (used to exercise sub-100 fuzzy accepts). -/
def constScorer95 : String → String → Rat :=
  fun _ _ => 95

/-- Scorer giving every pair 60 (below the default threshold 92). -/
def constScorer60 : String → String → Rat :=
  fun _ _ => 60

/-- Default configuration: fuzzy on, threshold 92. -/
def cfgFuzzy92 : Config := ⟨true, 92, eqScorer⟩

/-- Fuzzy disabled, threshold 92. -/
def cfgNoFuzzy92 : Config := ⟨false, 92, eqScorer⟩

/-- Fuzzy on with the constant-95 scorer. -/
def cfgConst95 : Config := ⟨true, 92, constScorer95⟩

/-- Fuzzy on with the constant-60 scorer (every candidate below threshold). -/
def cfgConst60 : Config := ⟨true, 92, constScorer60⟩

/-- Subject with a single empty name. -/
def subjEmptyName : Frame := ⟨["Name"], [rowOf [("Name", Value.str "")]]⟩

/-- Reference whose single name `"-"` normalizes to the empty key, with
category `"X"`. -/
def refDashX : Frame :=
  ⟨["Name", "Cat"], [rowOf [("Name", Value.str "-"), ("Cat", Value.str "X")]]⟩

/-- Subject with the single name `"acme corp"`. -/
def subjAcme : Frame := ⟨["Name"], [rowOf [("Name", Value.str "acme corp")]]⟩

/-- Reference with the single name `"acme corp"` and no category column. -/
def refAcme : Frame := ⟨["Name"], [rowOf [("Name", Value.str "acme corp")]]⟩

/-- Reference with name `"acme corp"` and category `"X"`. -/
def refAcmeX : Frame :=
  ⟨["Name", "Cat"], [rowOf [("Name", Value.str "acme corp"), ("Cat", Value.str "X")]]⟩

/-- Reference with name `"acme corp"` and a missing category cell. -/
def refAcmeNaCat : Frame :=
  ⟨["Name", "Cat"], [rowOf [("Name", Value.str "acme corp")]]⟩

/-- Subject owning a column literally called `Category`. -/
def subjCatCol : Frame :=
  ⟨["Name", "Category"], [rowOf [("Name", Value.str "x"), ("Category", Value.str "orig")]]⟩

/-- Subject with an extra ordinary column. -/
def subjWithOther : Frame :=
  ⟨["Name", "Other"], [rowOf [("Name", Value.str "acme corp"), ("Other", Value.str "keep me")]]⟩

/-- Subject with the single name `"zzz"` (no exact or equal-string match). -/
def subjZzz : Frame := ⟨["Name"], [rowOf [("Name", Value.str "zzz")]]⟩

/-- Subject `"abc"` against reference `"xyz"`: only fuzzy can relate them. -/
def subjAbc : Frame := ⟨["Name"], [rowOf [("Name", Value.str "abc")]]⟩

/-- Reference with name `"xyz"` and category `"K"`. -/
def refXyzK : Frame :=
  ⟨["Name", "Cat"], [rowOf [("Name", Value.str "xyz"), ("Cat", Value.str "K")]]⟩

/-- Reference with two rows sharing the canonical key `"acme corp"` (distinct
categories) plus a row normalizing to the empty key. -/
def refDupAndEmpty : Frame :=
  ⟨["Name", "Cat"],
    [rowOf [("Name", Value.str "Acme Corp"), ("Cat", Value.str "A")],
     rowOf [("Name", Value.str "ACME-CORP."), ("Cat", Value.str "B")],
     rowOf [("Name", Value.str "-"), ("Cat", Value.str "X")]]⟩

/-- Reference with the usual columns but no rows. -/
def refEmpty : Frame := ⟨["Name", "Cat"], []⟩

/-- Column names the pipeline writes to: the four result columns, the
canonical-key column and the two merge helper columns. -/
def reservedCols : List String :=
  ["Category", "MatchedTo", "MatchMethod", "MatchScore", "_norm", "RefName", "RefCategory"]

/-! ### Basic cell lemmas -/

theorem setCell_same (r : Row) (c : String) (v : Value) : setCell r c v c = v := by
  simp [setCell]

theorem setCell_ne (r : Row) (c c2 : String) (v : Value) (h : c2 ≠ c) :
    setCell r c v c2 = r c2 := by
  simp [setCell, h]

/-! ### The reference index has unique keys -/

theorem dedupByNorm_not_mem_seen (l : List RefEntry) :
    ∀ (seen : List String), ∀ e ∈ dedupByNorm l seen, e.norm ∉ seen := by
  induction l with
  | nil => intro seen e he; simp [dedupByNorm] at he
  | cons a as ih =>
    intro seen e he
    by_cases h : a.norm ∈ seen
    · rw [dedupByNorm, if_pos h] at he
      exact ih seen e he
    · rw [dedupByNorm, if_neg h] at he
      rcases List.mem_cons.1 he with rfl | he2
      · exact h
      · intro hs
        exact ih (a.norm :: seen) e he2 (List.mem_cons_of_mem _ hs)

theorem dedupByNorm_nodup (l : List RefEntry) :
    ∀ (seen : List String), ((dedupByNorm l seen).map RefEntry.norm).Nodup := by
  induction l with
  | nil => intro seen; simp [dedupByNorm]
  | cons a as ih =>
    intro seen
    by_cases h : a.norm ∈ seen
    · rw [dedupByNorm, if_pos h]; exact ih seen
    · rw [dedupByNorm, if_neg h]
      simp only [List.map_cons, List.nodup_cons]
      refine ⟨fun hmem => ?_, ih _⟩
      rcases List.mem_map.1 hmem with ⟨e, he, hn⟩
      exact dedupByNorm_not_mem_seen as _ e he (by simp [hn])

theorem ref_map_nodup (col_name2 col_cat2 : String) (df2 : Frame) :
    ((ref_map col_name2 col_cat2 df2).map RefEntry.norm).Nodup :=
  dedupByNorm_nodup _ _

/-! ### With unique keys the left merge emits one row per subject row -/

theorem filter_keyMatch_eq (r : Row) (refs : List RefEntry)
    (h : (refs.map RefEntry.norm).Nodup) :
    refs.filter (keyMatch r) = (refs.find? (keyMatch r)).toList := by
  induction refs with
  | nil => rfl
  | cons a as ih =>
    simp only [List.map_cons, List.nodup_cons] at h
    by_cases hk : keyMatch r a
    · rw [List.filter_cons_of_pos hk, List.find?_cons_of_pos _ hk]
      have hnil : as.filter (keyMatch r) = [] := by
        rw [List.filter_eq_nil]
        intro e he hke
        have h1 : r "_norm" = Value.str a.norm := of_decide_eq_true hk
        have h2 : r "_norm" = Value.str e.norm := of_decide_eq_true hke
        have : a.norm = e.norm := by
          have := h1.symm.trans h2
          exact Value.str.inj this
        exact h.1 (List.mem_map.2 ⟨e, he, this.symm⟩)
      simp [hnil, Option.toList]
    · rw [List.filter_cons_of_neg hk, List.find?_cons_of_neg _ hk]
      exact ih h.2

theorem leftMerge_rows (f : Frame) (refs : List RefEntry)
    (h : (refs.map RefEntry.norm).Nodup) :
    (leftMerge f refs).rows = f.rows.map (merge_one refs) := by
  have hrow : ∀ r : Row,
      (match refs.filter (keyMatch r) with
        | [] => [setCell (setCell r "RefName" Value.na) "RefCategory" Value.na]
        | ms => ms.map (fun e =>
            setCell (setCell r "RefName" e.refName) "RefCategory" e.refCategory))
        = [merge_one refs r] := by
    intro r
    rw [filter_keyMatch_eq r refs h]
    cases hf : refs.find? (keyMatch r) <;> simp [merge_one, hf, Option.toList]
  show f.rows.bind _ = _
  simp only [hrow]
  induction f.rows with
  | nil => rfl
  | cons r rs ihr => simp_all [List.bind]

/-! ### The whole pipeline is a per-row map over the subject rows -/

theorem assign_rows (f : Frame) (c : String) (g : Row → Value) :
    (f.assign c g).rows = f.rows.map (fun r => setCell r c (g r)) := rfl

theorem reorder_columns_rows (col_name1 : String) (f : Frame) :
    (reorder_columns col_name1 f).rows = f.rows := rfl

theorem work_frame_rows (col_name : String) (df : Frame) :
    (work_frame col_name df).rows =
      df.rows.map (fun r => setCell r "_norm" (Value.str (normalize_name (r col_name)))) := rfl

theorem leftMerge_ref_map_rows (f : Frame) (col_name2 col_cat2 : String) (df2 : Frame) :
    (leftMerge f (ref_map col_name2 col_cat2 df2)).rows =
      f.rows.map (merge_one (ref_map col_name2 col_cat2 df2)) :=
  leftMerge_rows _ _ (ref_map_nodup col_name2 col_cat2 df2)

theorem runMatching_rows (cfg : Config) (col_name1 col_name2 col_cat2 : String)
    (df1 df2 : Frame) :
    (runMatching cfg col_name1 col_name2 col_cat2 df1 df2).rows =
      df1.rows.map (processRow cfg col_name1 col_cat2 (ref_map col_name2 col_cat2 df2)) := by
  cases hf : cfg.use_fuzzy <;> by_cases hcc : col_cat2 = noCatSentinel <;>
    simp only [runMatching, hf, hcc, if_true, if_false, ite_true, ite_false,
      Bool.false_eq_true, eq_self_iff_true, not_true, not_false_iff,
      reorder_columns_rows, assign_rows, work_frame_rows,
      leftMerge_ref_map_rows, List.map_map] <;>
    (apply List.map_congr_left; intro r _;
     simp only [Function.comp, processRow, exact_phase, notfound_phase, hf, hcc,
       Bool.false_eq_true, eq_self_iff_true, not_true, not_false_iff,
       ite_true, ite_false, if_true, if_false, id])

theorem cellAt_runMatching (cfg : Config) (col_name1 col_name2 col_cat2 : String)
    (df1 df2 : Frame) (i : Nat) (r0 : Row) (c : String)
    (hr0 : df1.rows.get? i = some r0) :
    cellAt (runMatching cfg col_name1 col_name2 col_cat2 df1 df2) i c =
      processRow cfg col_name1 col_cat2 (ref_map col_name2 col_cat2 df2) r0 c := by
  have hr0e : df1.rows[i]? = some r0 := by
    simpa [List.get?_eq_getElem?] using hr0
  simp [cellAt, runMatching_rows, List.getElem?_map, hr0e]

theorem notna_iff (v : Value) : v.notna = true ↔ v ≠ Value.na := by
  cases v <;> simp [Value.notna]

/-! ### Cell values after each phase -/

theorem merge_one_eq (refs : List RefEntry) (r : Row) :
    merge_one refs r =
      setCell (setCell r "RefName" (nameOfHit (refs.find? (keyMatch r))))
        "RefCategory" (catOfHit (refs.find? (keyMatch r))) := by
  cases h : refs.find? (keyMatch r) <;> simp [merge_one, h, nameOfHit, catOfHit]

theorem exact_phase_cells (col_name1 : String) (refs : List RefEntry) (r0 : Row) :
    exact_phase col_name1 refs r0 "_norm" = Value.str (normalize_name (r0 col_name1)) ∧
    exact_phase col_name1 refs r0 "Category" = catOfHit (exactLookup col_name1 refs r0) ∧
    exact_phase col_name1 refs r0 "MatchedTo" = nameOfHit (exactLookup col_name1 refs r0) ∧
    exact_phase col_name1 refs r0 "MatchMethod" =
      (if (catOfHit (exactLookup col_name1 refs r0)).notna then Value.str "Exact" else Value.na) ∧
    exact_phase col_name1 refs r0 "MatchScore" =
      (if (catOfHit (exactLookup col_name1 refs r0)).notna then Value.num 100 else Value.na) := by
  have hkey : keyMatch (setCell r0 "_norm" (Value.str (normalize_name (r0 col_name1)))) =
      fun e => decide (Value.str (normalize_name (r0 col_name1)) = Value.str e.norm) := by
    funext e; simp [keyMatch, setCell]
  refine ⟨?_, ?_, ?_, ?_, ?_⟩ <;>
    simp [exact_phase, merge_one_eq, setCell, hkey, exactLookup]

theorem fuzzyStep_of_method_set (cfg : Config) (refs : List RefEntry) (r : Row)
    (h : ¬ r "MatchMethod" = Value.na) :
    fuzzyStep cfg refs r = r := by
  simp [fuzzyStep, h]

theorem notfound_phase_cat (col_cat2 : String) (hcc : ¬ col_cat2 = noCatSentinel) (r : Row) :
    notfound_phase col_cat2 r "Category" = fillnaNF (r "Category") ∧
    notfound_phase col_cat2 r "MatchMethod" = fillnaNF (r "MatchMethod") ∧
    notfound_phase col_cat2 r "MatchScore" = fillna0 (r "MatchScore") ∧
    ∀ c, c ≠ "Category" → c ≠ "MatchMethod" → c ≠ "MatchScore" →
      notfound_phase col_cat2 r c = r c := by
  refine ⟨by simp [notfound_phase, hcc, setCell], by simp [notfound_phase, hcc, setCell],
    by simp [notfound_phase, hcc, setCell],
    fun c h1 h2 h3 => by simp [notfound_phase, hcc, setCell, h1, h2, h3]⟩

theorem notfound_phase_nocat (r : Row) :
    notfound_phase noCatSentinel r "Category" =
      (if (r "MatchedTo").notna then Value.str "Found" else Value.str "Not found") ∧
    notfound_phase noCatSentinel r "MatchMethod" = fillnaNF (r "MatchMethod") ∧
    notfound_phase noCatSentinel r "MatchScore" = fillna0 (r "MatchScore") ∧
    ∀ c, c ≠ "Category" → c ≠ "MatchMethod" → c ≠ "MatchScore" →
      notfound_phase noCatSentinel r c = r c := by
  refine ⟨by simp [notfound_phase, setCell], by simp [notfound_phase, setCell],
    by simp [notfound_phase, setCell],
    fun c h1 h2 h3 => by simp [notfound_phase, setCell, h1, h2, h3]⟩

/-! ### `extractOne` returns a maximal candidate -/

theorem extractOneAux_spec (scorer : String → String → Rat) (q : String) :
    ∀ (l : List String) (best : Option (String × Rat)) (c : String) (s : Rat),
      extractOneAux scorer q l best = some (c, s) →
      (best = some (c, s) ∨ (c ∈ l ∧ scorer q c = s)) ∧
        (∀ x ∈ l, scorer q x ≤ s) ∧
        (∀ b bs, best = some (b, bs) → bs ≤ s) := by
  intro l
  induction l with
  | nil =>
    intro best c s h
    rw [extractOneAux] at h
    refine ⟨Or.inl h, by simp, fun b bs hb => ?_⟩
    rw [h] at hb
    simp_all
  | cons a as ih =>
    intro best c s h
    match best with
    | none =>
      rw [extractOneAux] at h
      obtain ⟨h1, h2, h3⟩ := ih (some (a, scorer q a)) c s h
      have hbound : scorer q a ≤ s := h3 a (scorer q a) rfl
      refine ⟨Or.inr ?_, ?_, by simp⟩
      · rcases h1 with h1 | h1
        · obtain ⟨rfl, rfl⟩ := Prod.mk.injEq .. ▸ Option.some.inj h1
          exact ⟨List.mem_cons_self _ _, rfl⟩
        · exact ⟨List.mem_cons_of_mem _ h1.1, h1.2⟩
      · intro x hx
        rcases List.mem_cons.1 hx with rfl | hx
        · exact hbound
        · exact h2 x hx
    | some (b0, bs0) =>
      rw [extractOneAux] at h
      by_cases hcmp : bs0 < scorer q a
      · rw [if_pos hcmp] at h
        obtain ⟨h1, h2, h3⟩ := ih (some (a, scorer q a)) c s h
        have hbound : scorer q a ≤ s := h3 a (scorer q a) rfl
        refine ⟨Or.inr ?_, ?_, ?_⟩
        · rcases h1 with h1 | h1
          · obtain ⟨rfl, rfl⟩ := Prod.mk.injEq .. ▸ Option.some.inj h1
            exact ⟨List.mem_cons_self _ _, rfl⟩
          · exact ⟨List.mem_cons_of_mem _ h1.1, h1.2⟩
        · intro x hx
          rcases List.mem_cons.1 hx with rfl | hx
          · exact hbound
          · exact h2 x hx
        · intro b bs hb
          obtain ⟨rfl, rfl⟩ := Prod.mk.injEq .. ▸ Option.some.inj hb
          exact le_trans (le_of_lt hcmp) hbound
      · rw [if_neg hcmp] at h
        obtain ⟨h1, h2, h3⟩ := ih (some (b0, bs0)) c s h
        have hb0 : bs0 ≤ s := h3 b0 bs0 rfl
        refine ⟨?_, ?_, ?_⟩
        · rcases h1 with h1 | h1
          · exact Or.inl h1
          · exact Or.inr ⟨List.mem_cons_of_mem _ h1.1, h1.2⟩
        · intro x hx
          rcases List.mem_cons.1 hx with rfl | hx
          · exact le_trans (le_of_not_lt hcmp) hb0
          · exact h2 x hx
        · intro b bs hb
          obtain ⟨rfl, rfl⟩ := Prod.mk.injEq .. ▸ Option.some.inj hb
          exact hb0

theorem extractOne_spec (scorer : String → String → Rat) (q : String)
    (l : List String) (c : String) (s : Rat)
    (h : extractOne scorer q l = some (c, s)) :
    c ∈ l ∧ scorer q c = s ∧ ∀ x ∈ l, scorer q x ≤ s := by
  obtain ⟨h1, h2, _⟩ := extractOneAux_spec scorer q l none c s h
  rcases h1 with h1 | h1
  · cases h1
  · exact ⟨h1.1, h1.2, h2⟩

/-! ### Run replacement and char replacement agree after collapsing -/

theorem collapse_sub_eq (l : List Char) :
    ∀ p : Bool,
      (collapseSpaces (subNonAlnum l false) p =
        collapseSpaces (l.map (fun c => if keepChar c then c else ' ')) p) ∧
      (collapseSpaces (subNonAlnum l true) true =
        collapseSpaces (l.map (fun c => if keepChar c then c else ' ')) true) := by
  induction l with
  | nil => intro p; simp [subNonAlnum]
  | cons c cs ih =>
    intro p
    by_cases hk : keepChar c
    · by_cases hsp : c = ' '
      · subst hsp
        cases p <;>
          simp [subNonAlnum, collapseSpaces, hk, (ih true).1]
      · constructor <;>
          simp [subNonAlnum, collapseSpaces, hk, hsp, (ih false).1]
    · have hsp : ¬ c = ' ' := fun hc => hk (by simp [hc, keepChar])
      cases p <;>
        constructor <;>
          simp [subNonAlnum, collapseSpaces, hk, hsp, (ih true).2]

theorem normalize_name_eq_spec (v : Value) : normalize_name v = normalize_spec v := by
  cases v with
  | na => rfl
  | num q => rfl
  | str s =>
    simp only [normalize_name, normalize_spec, normalizeStr]
    rw [(collapse_sub_eq ((s.data.map Char.toLower).map foldNbsp) false).1]
    simp only [List.map_map]
    refine congrArg String.mk (congrArg (fun l => stripSpaces (collapseSpaces l false)) ?_)
    exact List.map_congr_left (fun ch _ => rfl)

/-! ### Method-value case analyses -/

theorem exact_phase_method_cases (col_name1 : String) (refs : List RefEntry) (r0 : Row) :
    exact_phase col_name1 refs r0 "MatchMethod" = Value.str "Exact" ∨
    (exact_phase col_name1 refs r0 "MatchMethod" = Value.na ∧
      exact_phase col_name1 refs r0 "MatchScore" = Value.na) := by
  obtain ⟨_, _, _, hmm, hms⟩ := exact_phase_cells col_name1 refs r0
  by_cases hb : (catOfHit (exactLookup col_name1 refs r0)).notna
  · left; rw [hmm, if_pos hb]
  · right; rw [hmm, hms, if_neg hb, if_neg hb]; exact ⟨rfl, rfl⟩

theorem notfound_phase_method (col_cat2 : String) (r : Row) :
    notfound_phase col_cat2 r "MatchMethod" = fillnaNF (r "MatchMethod") := by
  by_cases hcc : col_cat2 = noCatSentinel
  · exact hcc ▸ (notfound_phase_nocat r).2.1
  · exact (notfound_phase_cat col_cat2 hcc r).2.1

theorem notfound_phase_score (col_cat2 : String) (r : Row) :
    notfound_phase col_cat2 r "MatchScore" = fillna0 (r "MatchScore") := by
  by_cases hcc : col_cat2 = noCatSentinel
  · exact hcc ▸ (notfound_phase_nocat r).2.2.1
  · exact (notfound_phase_cat col_cat2 hcc r).2.2.1

theorem notfound_phase_matchedTo (col_cat2 : String) (r : Row) :
    notfound_phase col_cat2 r "MatchedTo" = r "MatchedTo" := by
  by_cases hcc : col_cat2 = noCatSentinel
  · exact hcc ▸ (notfound_phase_nocat r).2.2.2 "MatchedTo" (by simp) (by simp) (by simp)
  · exact (notfound_phase_cat col_cat2 hcc r).2.2.2 "MatchedTo" (by simp) (by simp) (by simp)

theorem fuzzyStep_fire (cfg : Config) (refs : List RefEntry) (r : Row)
    (cand : String) (s : Rat)
    (hneed : r "MatchMethod" = Value.na ∧ ¬ r "_norm" = Value.str "")
    (hext : extractOne cfg.scorer (cellStr (r "_norm"))
      ((dedupByNorm refs []).map RefEntry.norm) = some (cand, s))
    (hth : cfg.threshold ≤ s) :
    fuzzyStep cfg refs r "MatchMethod" = Value.str "Fuzzy" ∧
    fuzzyStep cfg refs r "MatchScore" = Value.num s ∧
    fuzzyStep cfg refs r "MatchedTo" = refRawLookup (dedupByNorm refs []) cand ∧
    fuzzyStep cfg refs r "Category" = refCatLookup (dedupByNorm refs []) cand := by
  refine ⟨?_, ?_, ?_, ?_⟩ <;>
    simp [fuzzyStep, hneed.1, hneed.2, hext, hth, setCell]

theorem fuzzyStep_skip (cfg : Config) (refs : List RefEntry) (r : Row)
    (h : (¬ (r "MatchMethod" = Value.na ∧ ¬ r "_norm" = Value.str "")) ∨
      extractOne cfg.scorer (cellStr (r "_norm"))
        ((dedupByNorm refs []).map RefEntry.norm) = none ∨
      (∃ cand s, extractOne cfg.scorer (cellStr (r "_norm"))
        ((dedupByNorm refs []).map RefEntry.norm) = some (cand, s) ∧ ¬ cfg.threshold ≤ s)) :
    fuzzyStep cfg refs r = r := by
  rcases h with h | h | ⟨cand, s, hext, hth⟩
  · simp [fuzzyStep, h]
  · by_cases hneed : r "MatchMethod" = Value.na ∧ ¬ r "_norm" = Value.str ""
    · simp [fuzzyStep, hneed, h]
    · simp [fuzzyStep, hneed]
  · by_cases hneed : r "MatchMethod" = Value.na ∧ ¬ r "_norm" = Value.str ""
    · simp [fuzzyStep, hneed, hext, hth]
    · simp [fuzzyStep, hneed]

/-! ## Claim C1 -/

/-- C1 (counterexample): a subject key that exactly equals a reference key is
not always labelled `Exact`.  In no-category mode (`refAcme`), `MatchMethod`
is derived from the merged category, which is always the `None` sentinel, so
the row falls into the fuzzy stage and is labelled `Fuzzy` (score 100).  The
same happens in category mode when the matched reference row's category cell
is missing (`refAcmeNaCat`). -/
theorem c1_counterexample :
    (cellAt (runMatching cfgFuzzy92 "Name" "Name" noCatSentinel subjAcme refAcme) 0
        "MatchMethod" = Value.str "Fuzzy" ∧
      ¬ cellAt (runMatching cfgFuzzy92 "Name" "Name" noCatSentinel subjAcme refAcme) 0
        "MatchMethod" = Value.str "Exact") ∧
    (cellAt (runMatching cfgFuzzy92 "Name" "Name" "Cat" subjAcme refAcmeNaCat) 0
        "MatchMethod" = Value.str "Fuzzy" ∧
      ¬ cellAt (runMatching cfgFuzzy92 "Name" "Name" "Cat" subjAcme refAcmeNaCat) 0
        "MatchMethod" = Value.str "Exact") := by
  decide

/-- C1 (amended): in category mode, for every subject row whose canonical key
equals the key of some reference-index entry whose category is not missing,
the pipeline reports `MatchMethod = Exact`, `MatchScore = 100.0`,
`Category` = the entry's category and `MatchedTo` = the entry's original name
— for every configuration, fuzzy matching enabled or not. -/
theorem c1_exact_wins (cfg : Config) (col_name1 col_name2 col_cat2 : String)
    (df1 df2 : Frame) (i : Nat) (r0 : Row) (e : RefEntry)
    (hcc : ¬ col_cat2 = noCatSentinel)
    (hr0 : df1.rows.get? i = some r0)
    (hhit : exactLookup col_name1 (ref_map col_name2 col_cat2 df2) r0 = some e)
    (hcat : e.refCategory ≠ Value.na) :
    cellAt (runMatching cfg col_name1 col_name2 col_cat2 df1 df2) i "MatchMethod" =
      Value.str "Exact" ∧
    cellAt (runMatching cfg col_name1 col_name2 col_cat2 df1 df2) i "MatchScore" =
      Value.num 100 ∧
    cellAt (runMatching cfg col_name1 col_name2 col_cat2 df1 df2) i "Category" =
      e.refCategory ∧
    cellAt (runMatching cfg col_name1 col_name2 col_cat2 df1 df2) i "MatchedTo" =
      e.refName := by
  obtain ⟨hn, hcat', hmt, hmm, hms⟩ :=
    exact_phase_cells col_name1 (ref_map col_name2 col_cat2 df2) r0
  rw [hhit] at hcat' hmt hmm hms
  simp only [catOfHit, nameOfHit, (notna_iff e.refCategory).2 hcat, if_true, ite_true] at hcat' hmt hmm hms
  have hfz : (if cfg.use_fuzzy then
        fuzzyStep cfg (ref_map col_name2 col_cat2 df2) else id)
      (exact_phase col_name1 (ref_map col_name2 col_cat2 df2) r0) =
      exact_phase col_name1 (ref_map col_name2 col_cat2 df2) r0 := by
    cases cfg.use_fuzzy with
    | false => rfl
    | true =>
      simp only [if_true, ite_true]
      exact fuzzyStep_of_method_set _ _ _ (by rw [hmm]; simp)
  obtain ⟨hC, hM, hS, hP⟩ :=
    notfound_phase_cat col_cat2 hcc
      (exact_phase col_name1 (ref_map col_name2 col_cat2 df2) r0)
  refine ⟨?_, ?_, ?_, ?_⟩ <;>
    rw [cellAt_runMatching cfg col_name1 col_name2 col_cat2 df1 df2 i r0 _ hr0] <;>
    simp only [processRow, hfz]
  · rw [hM, hmm]; simp [fillnaNF]
  · rw [hS, hms]; simp [fillna0]
  · rw [hC, hcat']; simp [fillnaNF, hcat]
  · rw [hP "MatchedTo" (by simp) (by simp) (by simp), hmt]

/-- C1 (witness): a concrete category-mode run in which the amended claim
fires: subject `"acme corp"` against reference `("acme corp", "X")`. -/
theorem c1_witness :
    cellAt (runMatching cfgFuzzy92 "Name" "Name" "Cat" subjAcme refAcmeX) 0 "MatchMethod" =
      Value.str "Exact" ∧
    cellAt (runMatching cfgFuzzy92 "Name" "Name" "Cat" subjAcme refAcmeX) 0 "MatchScore" =
      Value.num 100 ∧
    cellAt (runMatching cfgFuzzy92 "Name" "Name" "Cat" subjAcme refAcmeX) 0 "Category" =
      Value.str "X" ∧
    cellAt (runMatching cfgFuzzy92 "Name" "Name" "Cat" subjAcme refAcmeX) 0 "MatchedTo" =
      Value.str "acme corp" :=
  c1_exact_wins cfgFuzzy92 "Name" "Name" "Cat" subjAcme refAcmeX 0
    (rowOf [("Name", Value.str "acme corp")])
    ⟨"acme corp", Value.str "acme corp", Value.str "X"⟩
    (by decide) rfl (by decide) (by decide)

/-! ## Claim C2 -/

/-- C2 (code bug, evaluated): a subject row with an empty raw name is NOT
always classified `Not found`.  When the reference contains a row normalizing
to the empty key (here `"-"`) with a non-missing category, the empty-key
subject row exact-matches it: the source's `dropna(subset=["_norm"])` never
drops empty keys because `normalize_name` returns `""`, not `NaN`. -/
theorem c2_empty_key_matches_exact :
    normalize_name (Value.str "") = "" ∧
    normalize_name (Value.str "-") = "" ∧
    cellAt (runMatching cfgFuzzy92 "Name" "Name" "Cat" subjEmptyName refDashX) 0
      "MatchMethod" = Value.str "Exact" ∧
    cellAt (runMatching cfgFuzzy92 "Name" "Name" "Cat" subjEmptyName refDashX) 0
      "Category" = Value.str "X" ∧
    cellAt (runMatching cfgFuzzy92 "Name" "Name" "Cat" subjEmptyName refDashX) 0
      "MatchScore" = Value.num 100 := by
  decide

/-! ## Claim C3 -/

/-- C3 (counterexample): characters outside `[a-z0-9 ]` are replaced by a
space, not deleted: `"Jane-Doe"` normalizes to `"jane doe"`, while the claim's
deletion reading would give `"janedoe"`. -/
theorem c3_counterexample :
    normalize_name (Value.str "Jane-Doe") = "jane doe" ∧
    normalize_claimC3 (Value.str "Jane-Doe") = "janedoe" ∧
    ¬ normalize_name (Value.str "Jane-Doe") = normalize_claimC3 (Value.str "Jane-Doe") := by
  decide

/-- C3 (amended): `normalize` is total, and equals the claimed pipeline with
the substitution corrected from "removed" to "replaced by a space": missing
maps to the empty key; otherwise lower-case, fold non-breaking spaces to
spaces, replace every character outside `[a-z0-9 ]` by a space, collapse
whitespace runs to a single space, and trim. -/
theorem c3_normalize_spec (v : Value) : normalize_name v = normalize_spec v :=
  normalize_name_eq_spec v

/-! ## Claim C5 -/

/-- C5: fuzzy matching respects the threshold and maximality.  If a row ends
up `Fuzzy`, then `extractOne` returned some best candidate whose score is at
least the threshold, `MatchScore` is exactly that score, the candidate is a
reference-index key attaining its reported score and no reference-index key
scores higher, and `MatchedTo` is the candidate's original reference name.
Conversely, for a row that reaches the approximate matcher (fuzzy enabled and
exact stage left it unset), if every candidate `extractOne` could return
scores below the threshold (in particular when there are no candidates), the
row falls through to `Not found` with score 0. -/
theorem c5_fuzzy_threshold (cfg : Config) (col_name1 col_name2 col_cat2 : String)
    (df1 df2 : Frame) (i : Nat) (r0 : Row)
    (hr0 : df1.rows.get? i = some r0) :
    (cellAt (runMatching cfg col_name1 col_name2 col_cat2 df1 df2) i "MatchMethod" =
        Value.str "Fuzzy" →
      ∃ cand s,
        extractOne cfg.scorer (normalize_name (r0 col_name1))
          ((dedupByNorm (ref_map col_name2 col_cat2 df2) []).map RefEntry.norm) =
          some (cand, s) ∧
        cfg.threshold ≤ s ∧
        cellAt (runMatching cfg col_name1 col_name2 col_cat2 df1 df2) i "MatchScore" =
          Value.num s ∧
        cand ∈ (dedupByNorm (ref_map col_name2 col_cat2 df2) []).map RefEntry.norm ∧
        cfg.scorer (normalize_name (r0 col_name1)) cand = s ∧
        (∀ x ∈ (dedupByNorm (ref_map col_name2 col_cat2 df2) []).map RefEntry.norm,
          cfg.scorer (normalize_name (r0 col_name1)) x ≤ s) ∧
        cellAt (runMatching cfg col_name1 col_name2 col_cat2 df1 df2) i "MatchedTo" =
          refRawLookup (dedupByNorm (ref_map col_name2 col_cat2 df2) []) cand) ∧
    (cfg.use_fuzzy = true →
      exact_phase col_name1 (ref_map col_name2 col_cat2 df2) r0 "MatchMethod" = Value.na →
      (∀ cand s,
        extractOne cfg.scorer (normalize_name (r0 col_name1))
          ((dedupByNorm (ref_map col_name2 col_cat2 df2) []).map RefEntry.norm) =
          some (cand, s) → s < cfg.threshold) →
      cellAt (runMatching cfg col_name1 col_name2 col_cat2 df1 df2) i "MatchMethod" =
        Value.str "Not found" ∧
      cellAt (runMatching cfg col_name1 col_name2 col_cat2 df1 df2) i "MatchScore" =
        Value.num 0) := by
  have hq : cellStr (exact_phase col_name1 (ref_map col_name2 col_cat2 df2) r0 "_norm") =
      normalize_name (r0 col_name1) := by
    rw [(exact_phase_cells col_name1 (ref_map col_name2 col_cat2 df2) r0).1]; rfl
  have hcellM := cellAt_runMatching cfg col_name1 col_name2 col_cat2 df1 df2 i r0
    "MatchMethod" hr0
  have hcellS := cellAt_runMatching cfg col_name1 col_name2 col_cat2 df1 df2 i r0
    "MatchScore" hr0
  have hcellT := cellAt_runMatching cfg col_name1 col_name2 col_cat2 df1 df2 i r0
    "MatchedTo" hr0
  constructor
  · -- a `Fuzzy` row can only come from an accepted `extractOne` result
    intro hFuzzy
    rw [hcellM] at hFuzzy
    cases hf : cfg.use_fuzzy with
    | false =>
      exfalso
      simp only [processRow, hf, Bool.false_eq_true, if_false, ite_false, id,
        notfound_phase_method] at hFuzzy
      rcases exact_phase_method_cases col_name1 (ref_map col_name2 col_cat2 df2) r0 with
        hm | ⟨hm, _⟩ <;> rw [hm] at hFuzzy <;> simp [fillnaNF] at hFuzzy
    | true =>
      simp only [processRow, hf, if_true, ite_true, notfound_phase_method] at hFuzzy
      by_cases hneed : exact_phase col_name1 (ref_map col_name2 col_cat2 df2) r0
          "MatchMethod" = Value.na ∧
          ¬ exact_phase col_name1 (ref_map col_name2 col_cat2 df2) r0 "_norm" =
            Value.str ""
      · cases hext : extractOne cfg.scorer
            (cellStr (exact_phase col_name1 (ref_map col_name2 col_cat2 df2) r0 "_norm"))
            ((dedupByNorm (ref_map col_name2 col_cat2 df2) []).map RefEntry.norm) with
        | none =>
          exfalso
          rw [fuzzyStep_skip cfg _ _ (Or.inr (Or.inl hext)), hneed.1] at hFuzzy
          simp [fillnaNF] at hFuzzy
        | some p =>
          obtain ⟨cand, s⟩ := p
          by_cases hth : cfg.threshold ≤ s
          · obtain ⟨hM, hS, hT, _⟩ := fuzzyStep_fire cfg _ _ cand s hneed hext hth
            rw [hq] at hext
            obtain ⟨hmem, hscore, hmax⟩ := extractOne_spec cfg.scorer _ _ cand s hext
            refine ⟨cand, s, hext, hth, ?_, hmem, hscore, hmax, ?_⟩
            · rw [hcellS]
              simp only [processRow, hf, if_true, ite_true, notfound_phase_score, hS]
              simp [fillna0]
            · rw [hcellT]
              simp only [processRow, hf, if_true, ite_true, notfound_phase_matchedTo, hT]
          · exfalso
            rw [fuzzyStep_skip cfg _ _ (Or.inr (Or.inr ⟨cand, s, hext, hth⟩)), hneed.1]
              at hFuzzy
            simp [fillnaNF] at hFuzzy
      · exfalso
        rw [fuzzyStep_skip cfg _ _ (Or.inl hneed)] at hFuzzy
        rcases exact_phase_method_cases col_name1 (ref_map col_name2 col_cat2 df2) r0 with
          hm | ⟨hm, _⟩ <;> rw [hm] at hFuzzy <;> simp [fillnaNF] at hFuzzy
  · -- sub-threshold (or empty) candidate lists fall through to `Not found`
    intro hf hmiss hlt
    have hscore_na : exact_phase col_name1 (ref_map col_name2 col_cat2 df2) r0
        "MatchScore" = Value.na := by
      rcases exact_phase_method_cases col_name1 (ref_map col_name2 col_cat2 df2) r0 with
        hm | ⟨_, hs⟩
      · rw [hm] at hmiss; cases hmiss
      · exact hs
    have hskip : fuzzyStep cfg (ref_map col_name2 col_cat2 df2)
        (exact_phase col_name1 (ref_map col_name2 col_cat2 df2) r0) =
        exact_phase col_name1 (ref_map col_name2 col_cat2 df2) r0 := by
      by_cases hnorm : exact_phase col_name1 (ref_map col_name2 col_cat2 df2) r0 "_norm" =
          Value.str ""
      · exact fuzzyStep_skip cfg _ _ (Or.inl (by simp [hnorm]))
      · cases hext : extractOne cfg.scorer
            (cellStr (exact_phase col_name1 (ref_map col_name2 col_cat2 df2) r0 "_norm"))
            ((dedupByNorm (ref_map col_name2 col_cat2 df2) []).map RefEntry.norm) with
        | none => exact fuzzyStep_skip cfg _ _ (Or.inr (Or.inl hext))
        | some p =>
          obtain ⟨cand, s⟩ := p
          have hlt2 : s < cfg.threshold := hlt cand s (by rw [← hq]; exact hext)
          exact fuzzyStep_skip cfg _ _
            (Or.inr (Or.inr ⟨cand, s, hext, not_le_of_lt hlt2⟩))
    constructor
    · rw [hcellM]
      simp only [processRow, hf, if_true, ite_true, hskip, notfound_phase_method, hmiss]
      simp [fillnaNF]
    · rw [hcellS]
      simp only [processRow, hf, if_true, ite_true, hskip, notfound_phase_score, hscore_na]
      simp [fillna0]

/-- C5 (witness): with the constant-95 scorer and threshold 92, `"abc"`
fuzzy-matches `"xyz"`; the theorem applied to this run yields the accepted
best candidate with its threshold bound and reported score. -/
theorem c5_witness :
    ∃ cand s,
      extractOne cfgConst95.scorer (normalize_name (Value.str "abc"))
        ((dedupByNorm (ref_map "Name" "Cat" refXyzK) []).map RefEntry.norm) =
        some (cand, s) ∧
      cfgConst95.threshold ≤ s ∧
      cellAt (runMatching cfgConst95 "Name" "Name" "Cat" subjAbc refXyzK) 0 "MatchScore" =
        Value.num s ∧
      cand ∈ (dedupByNorm (ref_map "Name" "Cat" refXyzK) []).map RefEntry.norm ∧
      cfgConst95.scorer (normalize_name (Value.str "abc")) cand = s ∧
      (∀ x ∈ (dedupByNorm (ref_map "Name" "Cat" refXyzK) []).map RefEntry.norm,
        cfgConst95.scorer (normalize_name (Value.str "abc")) x ≤ s) ∧
      cellAt (runMatching cfgConst95 "Name" "Name" "Cat" subjAbc refXyzK) 0 "MatchedTo" =
        refRawLookup (dedupByNorm (ref_map "Name" "Cat" refXyzK) []) cand :=
  (c5_fuzzy_threshold cfgConst95 "Name" "Name" "Cat" subjAbc refXyzK 0
    (rowOf [("Name", Value.str "abc")]) rfl).1 (by decide)

/-! ## Claim C4 -/

/-- C4 (code bug, evaluated): on a reference with two rows sharing the key
`"acme corp"` and a row `"-"` normalizing to the empty key, the reference
index keeps the first-encountered duplicate (category `"A"`) as claimed, but
it DOES contain an entry with the empty canonical key: the source's
`dropna(subset=["_norm"])` cannot drop it, since `normalize_name` returns
`""`, never `NaN`. -/
theorem c4_ref_index_eval :
    ref_map "Name" "Cat" refDupAndEmpty =
      [⟨"acme corp", Value.str "Acme Corp", Value.str "A"⟩,
       ⟨"", Value.str "-", Value.str "X"⟩] := by
  decide

/-! ## Claim C6 -/

/-- C6 (counterexample): in no-category mode with fuzzy disabled, a subject
whose key exactly equals a reference key is NOT matched as Exact or Fuzzy
(`MatchMethod` is "Not found"), yet its `Category` is "Found" — so "matched
(Exact or Fuzzy)" and "`MatchedTo` is set" are not equivalent, and an
unmatched row can report `Category = "Found"`. -/
theorem c6_counterexample :
    cellAt (runMatching cfgNoFuzzy92 "Name" "Name" noCatSentinel subjAcme refAcme) 0
      "MatchMethod" = Value.str "Not found" ∧
    cellAt (runMatching cfgNoFuzzy92 "Name" "Name" noCatSentinel subjAcme refAcme) 0
      "Category" = Value.str "Found" := by
  decide

/-- C6 (amended): in no-category mode every subject row's final `Category` is
recomputed purely from `MatchedTo`: "Found" when `MatchedTo` is set, "Not
found" otherwise, overriding whatever any earlier stage computed.  (A row can
have `MatchedTo` set while `MatchMethod` is "Not found", so "MatchedTo is
set" is the correct reading, not "Exact or Fuzzy".) -/
theorem c6_nocat_found (cfg : Config) (col_name1 col_name2 : String)
    (df1 df2 : Frame) (i : Nat) (r0 : Row)
    (hr0 : df1.rows.get? i = some r0) :
    cellAt (runMatching cfg col_name1 col_name2 noCatSentinel df1 df2) i "Category" =
      (if (cellAt (runMatching cfg col_name1 col_name2 noCatSentinel df1 df2) i
          "MatchedTo").notna
        then Value.str "Found" else Value.str "Not found") := by
  rw [cellAt_runMatching cfg col_name1 col_name2 noCatSentinel df1 df2 i r0 "Category" hr0,
    cellAt_runMatching cfg col_name1 col_name2 noCatSentinel df1 df2 i r0 "MatchedTo" hr0]
  simp only [processRow]
  rw [(notfound_phase_nocat _).1]
  simp only [notfound_phase_matchedTo]

/-- C6 (witness): the amended claim at a concrete no-category run: the
matched row reports `Category = "Found"`. -/
theorem c6_witness :
    cellAt (runMatching cfgFuzzy92 "Name" "Name" noCatSentinel subjAcme refAcme) 0
      "Category" =
      (if (cellAt (runMatching cfgFuzzy92 "Name" "Name" noCatSentinel subjAcme refAcme) 0
          "MatchedTo").notna
        then Value.str "Found" else Value.str "Not found") :=
  c6_nocat_found cfgFuzzy92 "Name" "Name" subjAcme refAcme 0
    (rowOf [("Name", Value.str "acme corp")]) rfl

/-! ## Claim C7 -/

/-- C7: with fuzzy matching disabled, every subject row the exact stage left
unresolved ends with `MatchMethod = "Not found"` and `MatchScore = 0.0`, for
every subject/reference dataset, both category modes, and every
threshold/scorer setting. -/
theorem c7_no_fuzzy_not_found (cfg : Config) (col_name1 col_name2 col_cat2 : String)
    (df1 df2 : Frame) (i : Nat) (r0 : Row)
    (hf : cfg.use_fuzzy = false)
    (hr0 : df1.rows.get? i = some r0)
    (hmiss : exact_phase col_name1 (ref_map col_name2 col_cat2 df2) r0 "MatchMethod" =
      Value.na) :
    cellAt (runMatching cfg col_name1 col_name2 col_cat2 df1 df2) i "MatchMethod" =
      Value.str "Not found" ∧
    cellAt (runMatching cfg col_name1 col_name2 col_cat2 df1 df2) i "MatchScore" =
      Value.num 0 := by
  have hscore_na : exact_phase col_name1 (ref_map col_name2 col_cat2 df2) r0
      "MatchScore" = Value.na := by
    rcases exact_phase_method_cases col_name1 (ref_map col_name2 col_cat2 df2) r0 with
      hm | ⟨_, hs⟩
    · rw [hm] at hmiss; cases hmiss
    · exact hs
  constructor
  · rw [cellAt_runMatching cfg col_name1 col_name2 col_cat2 df1 df2 i r0 "MatchMethod" hr0]
    simp only [processRow, hf, Bool.false_eq_true, if_false, ite_false, id,
      notfound_phase_method, hmiss]
    simp [fillnaNF]
  · rw [cellAt_runMatching cfg col_name1 col_name2 col_cat2 df1 df2 i r0 "MatchScore" hr0]
    simp only [processRow, hf, Bool.false_eq_true, if_false, ite_false, id,
      notfound_phase_score, hscore_na]
    simp [fillna0]

/-- C7 (witness): fuzzy disabled, subject `"zzz"` against reference
`"acme corp"`: an exact miss that ends "Not found" with score 0. -/
theorem c7_witness :
    cellAt (runMatching cfgNoFuzzy92 "Name" "Name" "Cat" subjZzz refAcmeX) 0
      "MatchMethod" = Value.str "Not found" ∧
    cellAt (runMatching cfgNoFuzzy92 "Name" "Name" "Cat" subjZzz refAcmeX) 0
      "MatchScore" = Value.num 0 :=
  c7_no_fuzzy_not_found cfgNoFuzzy92 "Name" "Name" "Cat" subjZzz refAcmeX 0
    (rowOf [("Name", Value.str "zzz")]) rfl rfl (by decide)

/-! ## Claim C8 -/

theorem fuzzyStep_method_cases (cfg : Config) (refs : List RefEntry) (r : Row) :
    fuzzyStep cfg refs r "MatchMethod" = r "MatchMethod" ∨
    fuzzyStep cfg refs r "MatchMethod" = Value.str "Fuzzy" := by
  by_cases hneed : r "MatchMethod" = Value.na ∧ ¬ r "_norm" = Value.str ""
  · cases hext : extractOne cfg.scorer (cellStr (r "_norm"))
        ((dedupByNorm refs []).map RefEntry.norm) with
    | none => left; rw [fuzzyStep_skip cfg refs r (Or.inr (Or.inl hext))]
    | some p =>
      obtain ⟨cand, s⟩ := p
      by_cases hth : cfg.threshold ≤ s
      · right; exact (fuzzyStep_fire cfg refs r cand s hneed hext hth).1
      · left; rw [fuzzyStep_skip cfg refs r (Or.inr (Or.inr ⟨cand, s, hext, hth⟩))]
  · left; rw [fuzzyStep_skip cfg refs r (Or.inl hneed)]

theorem processRow_method_mem (cfg : Config) (col_name1 col_cat2 : String)
    (refs : List RefEntry) (r0 : Row) :
    processRow cfg col_name1 col_cat2 refs r0 "MatchMethod" = Value.str "Exact" ∨
    processRow cfg col_name1 col_cat2 refs r0 "MatchMethod" = Value.str "Fuzzy" ∨
    processRow cfg col_name1 col_cat2 refs r0 "MatchMethod" = Value.str "Not found" := by
  simp only [processRow, notfound_phase_method]
  cases hf : cfg.use_fuzzy with
  | false =>
    simp only [Bool.false_eq_true, if_false, ite_false, id]
    rcases exact_phase_method_cases col_name1 refs r0 with hm | ⟨hm, _⟩ <;>
      rw [hm] <;> simp [fillnaNF]
  | true =>
    simp only [if_true, ite_true]
    rcases fuzzyStep_method_cases cfg refs (exact_phase col_name1 refs r0) with hm2 | hm2
    · rw [hm2]
      rcases exact_phase_method_cases col_name1 refs r0 with hm | ⟨hm, _⟩ <;>
        rw [hm] <;> simp [fillnaNF]
    · rw [hm2]; simp [fillnaNF]

theorem countP_method_partition (l : List Row)
    (h : ∀ r ∈ l, r "MatchMethod" = Value.str "Exact" ∨
      r "MatchMethod" = Value.str "Fuzzy" ∨ r "MatchMethod" = Value.str "Not found") :
    List.countP (fun r => decide (r "MatchMethod" = Value.str "Exact")) l +
      List.countP (fun r => decide (r "MatchMethod" = Value.str "Fuzzy")) l +
      List.countP (fun r => decide (r "MatchMethod" = Value.str "Not found")) l =
      l.length := by
  induction l with
  | nil => rfl
  | cons a as ih =>
    have hr := h a (List.mem_cons_self a as)
    have ihs := ih (fun x hx => h x (List.mem_cons_of_mem _ hx))
    simp only [List.countP_cons, List.length_cons]
    rcases hr with h1 | h1 | h1 <;> simp [h1] <;> rw [← ihs] <;> ring

/-- C8: every output row's `MatchMethod` is exactly one of "Exact", "Fuzzy",
"Not found" (the fallback fills "Not found"), and the summary counts of the
three methods sum to the total row count. -/
theorem c8_methods_partition (cfg : Config) (col_name1 col_name2 col_cat2 : String)
    (df1 df2 : Frame) :
    (∀ r ∈ (runMatching cfg col_name1 col_name2 col_cat2 df1 df2).rows,
      r "MatchMethod" = Value.str "Exact" ∨ r "MatchMethod" = Value.str "Fuzzy" ∨
      r "MatchMethod" = Value.str "Not found") ∧
    countMethod (runMatching cfg col_name1 col_name2 col_cat2 df1 df2) "Exact" +
      countMethod (runMatching cfg col_name1 col_name2 col_cat2 df1 df2) "Fuzzy" +
      countMethod (runMatching cfg col_name1 col_name2 col_cat2 df1 df2) "Not found" =
      totalRows (runMatching cfg col_name1 col_name2 col_cat2 df1 df2) := by
  have hmem : ∀ r ∈ (runMatching cfg col_name1 col_name2 col_cat2 df1 df2).rows,
      r "MatchMethod" = Value.str "Exact" ∨ r "MatchMethod" = Value.str "Fuzzy" ∨
      r "MatchMethod" = Value.str "Not found" := by
    intro r hrow
    rw [runMatching_rows] at hrow
    obtain ⟨r0, _, rfl⟩ := List.mem_map.1 hrow
    exact processRow_method_mem cfg col_name1 col_cat2 _ r0
  exact ⟨hmem, countP_method_partition _ hmem⟩

/-! ## Claim C9 -/

theorem assign_cols (f : Frame) (c : String) (g : Row → Value) :
    (f.assign c g).cols = if c ∈ f.cols then f.cols else f.cols ++ [c] := rfl

theorem leftMerge_cols (f : Frame) (refs : List RefEntry) :
    (leftMerge f refs).cols = f.cols ++ ["RefName", "RefCategory"] := rfl

theorem exact_phase_preserves (col_name1 : String) (refs : List RefEntry) (r0 : Row)
    (c : String) (hc : c ∉ reservedCols) :
    exact_phase col_name1 refs r0 c = r0 c := by
  simp only [reservedCols, List.mem_cons, List.not_mem_nil, or_false, not_or] at hc
  obtain ⟨h1, h2, h3, h4, h5, h6, h7⟩ := hc
  simp [exact_phase, merge_one_eq, setCell, h1, h2, h3, h4, h5, h6, h7]

theorem fuzzyStep_preserves (cfg : Config) (refs : List RefEntry) (r : Row)
    (c : String) (hc : c ∉ reservedCols) :
    fuzzyStep cfg refs r c = r c := by
  simp only [reservedCols, List.mem_cons, List.not_mem_nil, or_false, not_or] at hc
  obtain ⟨h1, h2, h3, h4, _, _, _⟩ := hc
  by_cases hneed : r "MatchMethod" = Value.na ∧ ¬ r "_norm" = Value.str ""
  · cases hext : extractOne cfg.scorer (cellStr (r "_norm"))
        ((dedupByNorm refs []).map RefEntry.norm) with
    | none => simp [fuzzyStep, hneed, hext]
    | some p =>
      obtain ⟨cand, s⟩ := p
      by_cases hth : cfg.threshold ≤ s
      · simp [fuzzyStep, hneed, hext, hth, setCell, h1, h2, h3, h4]
      · simp [fuzzyStep, hneed, hext, hth]
  · simp [fuzzyStep, hneed]

theorem notfound_phase_preserves (col_cat2 : String) (r : Row)
    (c : String) (hc : c ∉ reservedCols) :
    notfound_phase col_cat2 r c = r c := by
  simp only [reservedCols, List.mem_cons, List.not_mem_nil, or_false, not_or] at hc
  obtain ⟨h1, _, h3, h4, _, _, _⟩ := hc
  by_cases hcc : col_cat2 = noCatSentinel
  · exact hcc ▸ (notfound_phase_nocat r).2.2.2 c h1 h3 h4
  · exact (notfound_phase_cat col_cat2 hcc r).2.2.2 c h1 h3 h4

theorem processRow_preserves (cfg : Config) (col_name1 col_cat2 : String)
    (refs : List RefEntry) (r0 : Row) (c : String) (hc : c ∉ reservedCols) :
    processRow cfg col_name1 col_cat2 refs r0 c = r0 c := by
  simp only [processRow]
  rw [notfound_phase_preserves _ _ _ hc]
  cases hf : cfg.use_fuzzy with
  | false =>
    simp only [Bool.false_eq_true, if_false, ite_false, id]
    exact exact_phase_preserves _ _ _ _ hc
  | true =>
    simp only [if_true, ite_true]
    rw [fuzzyStep_preserves _ _ _ _ hc]
    exact exact_phase_preserves _ _ _ _ hc

theorem runMatching_cols (cfg : Config) (col_name1 col_name2 col_cat2 : String)
    (df1 df2 : Frame)
    (hclean : ∀ c ∈ df1.cols, c ∉ reservedCols)
    (hname : col_name1 ∈ df1.cols) :
    (runMatching cfg col_name1 col_name2 col_cat2 df1 df2).cols =
      df1.cols.take (df1.cols.indexOf col_name1 + 1) ++
        ["Category", "MatchedTo", "MatchMethod", "MatchScore"] ++
        df1.cols.drop (df1.cols.indexOf col_name1 + 1) := by
  have hN : "_norm" ∉ df1.cols := fun hm => hclean _ hm (by decide)
  have hRN : "RefName" ∉ df1.cols := fun hm => hclean _ hm (by decide)
  have hRC : "RefCategory" ∉ df1.cols := fun hm => hclean _ hm (by decide)
  have hC : "Category" ∉ df1.cols := fun hm => hclean _ hm (by decide)
  have hMT : "MatchedTo" ∉ df1.cols := fun hm => hclean _ hm (by decide)
  have hMM : "MatchMethod" ∉ df1.cols := fun hm => hclean _ hm (by decide)
  have hMS : "MatchScore" ∉ df1.cols := fun hm => hclean _ hm (by decide)
  simp only [runMatching, reorder_columns]
  cases hfz : cfg.use_fuzzy <;> by_cases hcc : col_cat2 = noCatSentinel <;>
    simp [hfz, hcc, assign_cols, leftMerge_cols, work_frame,
      hN, hRN, hRC, hC, hMT, hMM, hMS, hname, List.erase_append_right]

/-- C9 (counterexample): original subject columns are NOT always preserved
verbatim: a subject column literally named `Category` is overwritten by the
result column (value `"orig"` becomes `"Not found"`). -/
theorem c9_counterexample :
    cellAt (runMatching cfgFuzzy92 "Name" "Name" "Cat" subjCatCol refEmpty) 0 "Category" =
      Value.str "Not found" ∧
    ¬ cellAt (runMatching cfgFuzzy92 "Name" "Name" "Cat" subjCatCol refEmpty) 0 "Category" =
      Value.str "orig" := by
  decide

/-- C9 (amended): provided no subject column bears one of the seven names the
pipeline writes to (`Category`, `MatchedTo`, `MatchMethod`, `MatchScore`,
`_norm`, `RefName`, `RefCategory`), the output keeps every original subject
column with its values unchanged, inserts the four result columns immediately
after the subject's name column in the order Category, MatchedTo,
MatchMethod, MatchScore, and contains neither the canonical-key column nor
the reference-name/reference-category helper columns. -/
theorem c9_columns (cfg : Config) (col_name1 col_name2 col_cat2 : String)
    (df1 df2 : Frame)
    (hclean : ∀ c ∈ df1.cols, c ∉ reservedCols)
    (hname : col_name1 ∈ df1.cols) :
    (runMatching cfg col_name1 col_name2 col_cat2 df1 df2).cols =
      df1.cols.take (df1.cols.indexOf col_name1 + 1) ++
        ["Category", "MatchedTo", "MatchMethod", "MatchScore"] ++
        df1.cols.drop (df1.cols.indexOf col_name1 + 1) ∧
    (∀ c ∈ df1.cols, ∀ i r0, df1.rows.get? i = some r0 →
      cellAt (runMatching cfg col_name1 col_name2 col_cat2 df1 df2) i c = r0 c) ∧
    "_norm" ∉ (runMatching cfg col_name1 col_name2 col_cat2 df1 df2).cols ∧
    "RefName" ∉ (runMatching cfg col_name1 col_name2 col_cat2 df1 df2).cols ∧
    "RefCategory" ∉ (runMatching cfg col_name1 col_name2 col_cat2 df1 df2).cols := by
  have hcols := runMatching_cols cfg col_name1 col_name2 col_cat2 df1 df2 hclean hname
  have hnotmem : ∀ x ∈ reservedCols, x ∉ ["Category", "MatchedTo", "MatchMethod",
      "MatchScore"] → x ∉ (runMatching cfg col_name1 col_name2 col_cat2 df1 df2).cols := by
    intro x hres hx4 hmem
    rw [hcols] at hmem
    rcases List.mem_append.1 hmem with hmem | hmem
    · rcases List.mem_append.1 hmem with hmem | hmem
      · exact hclean x (List.take_subset _ _ hmem) hres
      · exact hx4 hmem
    · exact hclean x (List.drop_subset _ _ hmem) hres
  refine ⟨hcols, ?_, ?_, ?_, ?_⟩
  · intro c hcmem i r0 hr0
    rw [cellAt_runMatching cfg col_name1 col_name2 col_cat2 df1 df2 i r0 c hr0]
    exact processRow_preserves cfg col_name1 col_cat2 _ r0 c (hclean c hcmem)
  · exact hnotmem "_norm" (by decide) (by decide)
  · exact hnotmem "RefName" (by decide) (by decide)
  · exact hnotmem "RefCategory" (by decide) (by decide)

/-- C9 (witness): a clean two-column subject: the result columns slot in right
after `Name`, the extra column keeps its value, and the helper columns are
gone. -/
theorem c9_witness :
    (runMatching cfgFuzzy92 "Name" "Name" "Cat" subjWithOther refAcmeX).cols =
      ["Name", "Category", "MatchedTo", "MatchMethod", "MatchScore", "Other"] ∧
    cellAt (runMatching cfgFuzzy92 "Name" "Name" "Cat" subjWithOther refAcmeX) 0 "Other" =
      Value.str "keep me" := by
  have h := c9_columns cfgFuzzy92 "Name" "Name" "Cat" subjWithOther refAcmeX
    (by decide) (by decide)
  exact ⟨h.1.trans (by decide),
    h.2.1 "Other" (by decide) 0 (rowOf [("Name", Value.str "acme corp"),
      ("Other", Value.str "keep me")]) rfl⟩

/-! ## Claim C10 -/

/-- C10: the output contains exactly one row per subject row, in the subject
dataset's original order: the reference index is deduplicated by canonical
key before the left join, so the merge can neither duplicate nor drop rows,
and row `i` of the output is exactly the pipeline applied to subject row
`i`. -/
theorem c10_one_row_per_subject (cfg : Config) (col_name1 col_name2 col_cat2 : String)
    (df1 df2 : Frame) :
    (runMatching cfg col_name1 col_name2 col_cat2 df1 df2).rows =
      df1.rows.map (processRow cfg col_name1 col_cat2 (ref_map col_name2 col_cat2 df2)) ∧
    (runMatching cfg col_name1 col_name2 col_cat2 df1 df2).rows.length =
      df1.rows.length := by
  refine ⟨runMatching_rows cfg col_name1 col_name2 col_cat2 df1 df2, ?_⟩
  rw [runMatching_rows]
  exact List.length_map _ _

end Regi
